import Mathlib

/-!
# Verification of the pairs2groups group-discovery engine

A shallow embedding of `pairs2groups/util.py` and
`pairs2groups/__init__.py` (the combinatorial core: `UnorderedPair`,
`take_not`, `get_all_pairs`, `get_k_element_subsets`,
`is_list_of_sets_equal`, `remove_overlapping_subsets` and
`find_homogeneous_groups`), together with proofs and refutations of the
specification's claims about it.

Modelling conventions:

* An item is a `Nat` index.  A Python `frozenset` of items is represented by
  its canonical form: the strictly ascending list of its elements.  All
  frozensets manipulated by the search are built from `frozenset(range(N))`
  by repeatedly deleting single elements, so the canonical form is preserved
  by every operation that occurs (deleting one position of a strictly
  ascending list yields a strictly ascending list), and equality of
  frozensets coincides with equality of the canonical lists.  `tuple(f)` on
  such a frozenset enumerates the elements in this canonical order.
* A Python `set` used only through membership tests (`different_pairs`,
  `already_descended`) is represented by a list queried with `∈`; insertion
  is `cons`.
* `list(set(good_sets))` deduplicates `good_sets`; the iteration order of a
  CPython set is not part of the language contract, so any deduplication
  order is a faithful model and we use `List.dedup`.
* Python exceptions (`NotImplementedError` from `get_k_element_subsets`,
  the failing `assert` in `find_homogeneous_groups`) are modelled with
  `Except String`.
-/

namespace Pairs2Groups

/-- `UnorderedPair` (util.py lines 24-34): a 2-tuple canonicalised so that
`(a,b)` and `(b,a)` produce the same value: the element comparing `<=` is
put first. -/
def UnorderedPair (p : Nat × Nat) : Nat × Nat :=
  if p.1 ≤ p.2 then (p.1, p.2) else (p.2, p.1)

/-- `take_not(T, j)` (util.py lines 41-48): remove the `j`-th element of the
list `T` (identity when `j` is out of range, exactly as the Python list
comprehension `[T[i] for i in range(len(T)) if i != j]`). -/
def take_not {α : Type} (T : List α) (j : Nat) : List α := T.eraseIdx j

/-- `get_all_pairs(S)` (util.py lines 114-126): the double loop
`for i, Si in enumerate(Sl): for Sj in Sl[i+1:]` collecting
`UnorderedPair((Si, Sj))`. -/
def get_all_pairs : List Nat → List (Nat × Nat)
  | [] => []
  | x :: rest => rest.map (fun y => UnorderedPair (x, y)) ++ get_all_pairs rest

/-- Frozenset difference `a - b` restricted to the elements of `a` (the only
use the source makes of it is `len(a - b) == 0`, i.e. emptiness of the
difference, which depends only on which elements of `a` survive). -/
def fdiff {α : Type} [DecidableEq α] (a b : List α) : List α :=
  a.filter (fun x => decide (x ∉ b))

/-- `get_k_element_subsets(k, T)` (util.py lines 86-99): `[T]` when
`k == len(T)`, the `len(T)` one-element-removals when `k == len(T)-1`, and
`NotImplementedError` otherwise.  `k` is an `Int` because Python subtracts
below zero freely.  `frozenset(take_not(Tl, j))` is `take_not T j` itself:
removing one position of a canonical (strictly ascending) list leaves a
canonical list. -/
def get_k_element_subsets (k : Int) (T : List Nat) : Except String (List (List Nat)) :=
  if k = (T.length : Int) then Except.ok [T]
  else if k = (T.length : Int) - 1 then
    Except.ok ((List.range T.length).map (fun j => take_not T j))
  else Except.error "NotImplementedError"

/-- The subsets enumerated by `_f` at level `k`.  Within
`find_homogeneous_groups` the call is always made with `k = len(T)` (the
top-level call) or `k = len(T) - 1` (every recursive call), so the
`NotImplementedError` branch of `get_k_element_subsets` is unreachable
there; it is mapped to `[]`. -/
def subsetsFor (k : Nat) (T : List Nat) : List (List Nat) :=
  match get_k_element_subsets (k : Int) T with
  | Except.ok us => us
  | Except.error _ => []

/-- The `for i, U_i in enumerate(U)` loop inside `_f` (__init__.py lines
132-143), processing the pending subsets `U` at level `k` while threading
the `already_descended` set.  `recurse` is the recursive call
`_f(U_i, k-1, already_descended)`; it returns the child's good sets and the
updated visited set.  Returns `(this_good_sets, already_descended)`. -/
def fLoop (dpC : List (Nat × Nat)) (k : Nat)
    (recurse : List Nat → List (List Nat) → List (List Nat) × List (List Nat)) :
    List (List Nat) → List (List Nat) → List (List Nat) × List (List Nat)
  | [], vis => ([], vis)
  | Ui :: rest, vis =>
    if Ui ∈ vis then fLoop dpC k recurse rest vis
    else
      let vis1 := Ui :: vis
      if (get_all_pairs Ui).any (fun p => decide (p ∈ dpC)) then
        if 3 ≤ k then
          let r1 := recurse Ui vis1
          let r2 := fLoop dpC k recurse rest r1.2
          (r1.1 ++ r2.1, r2.2)
        else fLoop dpC k recurse rest vis1
      else
        let r2 := fLoop dpC k recurse rest vis1
        (Ui :: r2.1, r2.2)

/-- The recursive function `_f(T, k, already_descended)` (__init__.py lines
128-144), with the mutable shared `already_descended` set threaded through
explicitly.  Structural recursion on `k`; at `k = 0` the guard `k >= 3` is
false so the recursive call can never be taken and a dummy is supplied. -/
def _f (dpC : List (Nat × Nat)) :
    Nat → List Nat → List (List Nat) → List (List Nat) × List (List Nat)
  | 0, T, vis => fLoop dpC 0 (fun _ v => ([], v)) (subsetsFor 0 T) vis
  | (k+1), T, vis => fLoop dpC (k+1) (_f dpC k) (subsetsFor (k+1) T) vis

/-- The `for i, elem in enumerate(S)` loop of `remove_overlapping_subsets`
(util.py lines 136-143): `prev` holds the elements before the current
position and `rest` those after it, so that `prev ++ rest` is exactly
`take_not(S, i)` for the element at position `i`. -/
def rosAux : List (List Nat) → List (List Nat) → List (List Nat)
  | _, [] => []
  | prev, elem :: rest =>
    if (prev ++ rest).any (fun t => decide ((fdiff elem t).length = 0)) then
      rosAux (prev ++ [elem]) rest
    else elem :: rosAux (prev ++ [elem]) rest

/-- `remove_overlapping_subsets(S)` (util.py lines 128-144): keep `elem`
unless some element at a different position contains it
(`len(elem - test_elem) == 0`). -/
def remove_overlapping_subsets (S : List (List Nat)) : List (List Nat) :=
  rosAux [] S

/-- `is_list_of_sets_equal(A, B)` (util.py lines 50-84): `False` when the
raw lengths differ, otherwise `True` iff `frozenset(A) - frozenset(B)` is
empty. -/
def is_list_of_sets_equal (A B : List (List Nat)) : Bool :=
  if A.length ≠ B.length then false
  else
    let As := A.dedup
    let Bs := B.dedup
    let Cs := fdiff As Bs
    if Cs.length ≠ 0 then false else true

/-- `find_homogeneous_groups(different_pairs, N_items)` (__init__.py lines
83-151) for a non-negative item count: build the universe
`frozenset(range(N_items))`, canonicalise the input pairs, run `_f` with an
empty visited set, deduplicate the good sets (`list(set(good_sets))`) and
remove overlapping subsets.  The final `[tuple(f) for f in final_sets]`
enumerates each frozenset in canonical ascending order, i.e. it is the
canonical list itself. -/
def find_homogeneous_groups (different_pairs : List (Nat × Nat)) (N_items : Nat) :
    List (List Nat) :=
  let S : List Nat := List.range N_items
  let dpC := different_pairs.map UnorderedPair
  let good_sets := (_f dpC N_items S []).1
  let good_sets2 := good_sets.dedup
  let final_sets := remove_overlapping_subsets good_sets2
  final_sets

/-- `find_homogeneous_groups` including the input prelude for an arbitrary
integer `N_items` (__init__.py lines 118-121): `S = frozenset(range(N_items))`
(empty for negative `N_items`), `k = N_items`, `assert k == len(S)`.  The
assertion fails exactly when `N_items` is negative, aborting the call before
the search starts; no other input validation is performed. -/
def find_homogeneous_groups_checked (different_pairs : List (Nat × Nat)) (N_items : Int) :
    Except String (List (List Nat)) :=
  let S : List Nat := List.range N_items.toNat
  if N_items = (S.length : Int) then
    Except.ok (find_homogeneous_groups different_pairs N_items.toNat)
  else Except.error "AssertionError"

/-! ## Basic lemmas -/

/-- Unfolding of `find_homogeneous_groups`. -/
theorem find_homogeneous_groups_eq (dp : List (Nat × Nat)) (N : Nat) :
    find_homogeneous_groups dp N =
      remove_overlapping_subsets
        ((_f (dp.map UnorderedPair) N (List.range N) []).1).dedup := rfl

/-- `UnorderedPair` is insensitive to the order of its two components. -/
theorem UnorderedPair_comm (a b : Nat) : UnorderedPair (a, b) = UnorderedPair (b, a) := by
  simp only [UnorderedPair]
  split <;> split <;> simp_all [Prod.ext_iff] <;> omega

/-- Any unordered pair of two distinct members of `S` occurs in
`get_all_pairs S`. -/
theorem mem_get_all_pairs {S : List Nat} {a b : Nat} (ha : a ∈ S) (hb : b ∈ S)
    (hne : a ≠ b) : UnorderedPair (a, b) ∈ get_all_pairs S := by
  induction S with
  | nil => cases ha
  | cons x rest ih =>
    rw [get_all_pairs]
    rcases List.mem_cons.mp ha with h1 | h1
    · subst h1
      have hbr : b ∈ rest := by
        rcases List.mem_cons.mp hb with h2 | h2
        · exact absurd h2.symm hne
        · exact h2
      exact List.mem_append_left _ (List.mem_map_of_mem _ hbr)
    · rcases List.mem_cons.mp hb with h2 | h2
      · subst h2
        rw [UnorderedPair_comm]
        exact List.mem_append_left _ (List.mem_map_of_mem _ h1)
      · exact List.mem_append_right _ (ih h1 h2)

/-- `List.any` only depends on the values of the predicate on the list. -/
theorem any_congr {α : Type} {l : List α} {f g : α → Bool}
    (h : ∀ x ∈ l, f x = g x) : l.any f = l.any g := by
  induction l with
  | nil => rfl
  | cons x xs ih =>
    simp only [List.any_cons, h x (List.mem_cons_self x xs),
      ih fun y hy => h y (List.mem_cons_of_mem x hy)]

theorem fLoop_nil (dpC : List (Nat × Nat)) (k : Nat) (rec : List Nat → List (List Nat) → List (List Nat) × List (List Nat)) (vis : List (List Nat)) :
    fLoop dpC k rec [] vis = ([], vis) := rfl

/-- A subset already recorded in the visited set is skipped outright. -/
theorem fLoop_cons_mem {Ui : List Nat} {vis : List (List Nat)} (dpC : List (Nat × Nat)) (k : Nat) (rec : List Nat → List (List Nat) → List (List Nat) × List (List Nat)) (rest : List (List Nat)) (h : Ui ∈ vis) :
    fLoop dpC k rec (Ui :: rest) vis = fLoop dpC k rec rest vis := by
  rw [fLoop, if_pos h]

/-- Processing a subset not yet visited. -/
theorem fLoop_cons_not_mem {Ui : List Nat} {vis : List (List Nat)} (dpC : List (Nat × Nat)) (k : Nat) (rec : List Nat → List (List Nat) → List (List Nat) × List (List Nat)) (rest : List (List Nat)) (h : Ui ∉ vis) :
    fLoop dpC k rec (Ui :: rest) vis =
      if (get_all_pairs Ui).any (fun p => decide (p ∈ dpC)) then
        if 3 ≤ k then
          ((rec Ui (Ui :: vis)).1 ++
              (fLoop dpC k rec rest (rec Ui (Ui :: vis)).2).1,
            (fLoop dpC k rec rest (rec Ui (Ui :: vis)).2).2)
        else fLoop dpC k rec rest (Ui :: vis)
      else
        ((Ui :: (fLoop dpC k rec rest (Ui :: vis)).1),
          (fLoop dpC k rec rest (Ui :: vis)).2) := by
  rw [fLoop, if_neg h]

/-! ## Invariants of the recursive search -/

/-- Where the good sets produced by one `fLoop` pass come from: each is
either a pending subset with no different pair, or was produced by a
recursive call on a pending subset. -/
theorem fLoop_goods_mem {dpC : List (Nat × Nat)} {k : Nat}
    {rec : List Nat → List (List Nat) → List (List Nat) × List (List Nat)}
    {Us vis : List (List Nat)} {g : List Nat}
    (h : g ∈ (fLoop dpC k rec Us vis).1) :
    (∃ Ui ∈ Us, g = Ui ∧
        (get_all_pairs Ui).any (fun p => decide (p ∈ dpC)) = false) ∨
    (∃ Ui ∈ Us, ∃ v, g ∈ (rec Ui v).1) := by
  induction Us generalizing vis with
  | nil => rw [fLoop_nil] at h; cases h
  | cons Ui rest ih =>
    by_cases hm : Ui ∈ vis
    · rw [fLoop_cons_mem dpC k rec rest hm] at h
      rcases ih h with ⟨U, hU, hg⟩ | ⟨U, hU, hg⟩
      · exact Or.inl ⟨U, List.mem_cons_of_mem _ hU, hg⟩
      · exact Or.inr ⟨U, List.mem_cons_of_mem _ hU, hg⟩
    · rw [fLoop_cons_not_mem dpC k rec rest hm] at h
      split at h
      · split at h
        · rcases List.mem_append.mp h with hg | hg
          · exact Or.inr ⟨Ui, List.mem_cons_self _ _, Ui :: vis, hg⟩
          · rcases ih hg with ⟨U, hU, hx⟩ | ⟨U, hU, hx⟩
            · exact Or.inl ⟨U, List.mem_cons_of_mem _ hU, hx⟩
            · exact Or.inr ⟨U, List.mem_cons_of_mem _ hU, hx⟩
        · rcases ih h with ⟨U, hU, hx⟩ | ⟨U, hU, hx⟩
          · exact Or.inl ⟨U, List.mem_cons_of_mem _ hU, hx⟩
          · exact Or.inr ⟨U, List.mem_cons_of_mem _ hU, hx⟩
      · rename_i hcond
        rcases List.mem_cons.mp h with rfl | hg
        · exact Or.inl ⟨g, List.mem_cons_self _ _, rfl,
            Bool.not_eq_true _ ▸ Bool.of_not_eq_true hcond⟩
        · rcases ih hg with ⟨U, hU, hx⟩ | ⟨U, hU, hx⟩
          · exact Or.inl ⟨U, List.mem_cons_of_mem _ hU, hx⟩
          · exact Or.inr ⟨U, List.mem_cons_of_mem _ hU, hx⟩

/-- Every good set returned by `_f` contains no pair from the canonical
different-pair set: the `any` test it was recorded under is `false`. -/
theorem f_goods_homog {dpC : List (Nat × Nat)} :
    ∀ (k : Nat) (T : List Nat) (vis : List (List Nat)) (g : List Nat),
      g ∈ (_f dpC k T vis).1 →
      (get_all_pairs g).any (fun p => decide (p ∈ dpC)) = false := by
  intro k
  induction k with
  | zero =>
    intro T vis g hg
    have hg2 : g ∈ (fLoop dpC 0 (fun _ v => ([], v)) (subsetsFor 0 T) vis).1 := hg
    rcases fLoop_goods_mem hg2 with ⟨U, _, rfl, hfalse⟩ | ⟨U, hU, v, hx⟩
    · exact hfalse
    · cases hx
  | succ k ih =>
    intro T vis g hg
    have hg2 : g ∈ (fLoop dpC (k+1) (_f dpC k) (subsetsFor (k+1) T) vis).1 := hg
    rcases fLoop_goods_mem hg2 with ⟨U, _, rfl, hfalse⟩ | ⟨U, hU, v, hx⟩
    · exact hfalse
    · exact ih U v g hx

/-- One `fLoop` pass keeps the visited set duplicate-free and only grows
it, provided the recursive call does so. -/
theorem fLoop_vis {dpC : List (Nat × Nat)} {k : Nat}
    {rec : List Nat → List (List Nat) → List (List Nat) × List (List Nat)}
    (hrec : ∀ U v, v.Nodup →
      ((rec U v).2.Nodup ∧ ∀ s ∈ v, s ∈ (rec U v).2)) :
    ∀ (Us vis : List (List Nat)), vis.Nodup →
      ((fLoop dpC k rec Us vis).2.Nodup ∧
        ∀ s ∈ vis, s ∈ (fLoop dpC k rec Us vis).2) := by
  intro Us
  induction Us with
  | nil => intro vis hv; rw [fLoop_nil]; exact ⟨hv, fun s hs => hs⟩
  | cons Ui rest ih =>
    intro vis hv
    by_cases hm : Ui ∈ vis
    · rw [fLoop_cons_mem dpC k rec rest hm]; exact ih vis hv
    · rw [fLoop_cons_not_mem dpC k rec rest hm]
      have hv1 : (Ui :: vis).Nodup := List.nodup_cons.mpr ⟨hm, hv⟩
      split
      · split
        · rcases hrec Ui (Ui :: vis) hv1 with ⟨hn2, hm2⟩
          rcases ih (rec Ui (Ui :: vis)).2 hn2 with ⟨hn3, hm3⟩
          exact ⟨hn3, fun s hs => hm3 s (hm2 s (List.mem_cons_of_mem _ hs))⟩
        · rcases ih (Ui :: vis) hv1 with ⟨hn3, hm3⟩
          exact ⟨hn3, fun s hs => hm3 s (List.mem_cons_of_mem _ hs)⟩
      · rcases ih (Ui :: vis) hv1 with ⟨hn3, hm3⟩
        exact ⟨hn3, fun s hs => hm3 s (List.mem_cons_of_mem _ hs)⟩

/-- `_f` keeps the visited set duplicate-free and only grows it. -/
theorem f_vis {dpC : List (Nat × Nat)} :
    ∀ (k : Nat) (T : List Nat) (vis : List (List Nat)), vis.Nodup →
      ((_f dpC k T vis).2.Nodup ∧ ∀ s ∈ vis, s ∈ (_f dpC k T vis).2) := by
  intro k
  induction k with
  | zero =>
    intro T vis hv
    exact fLoop_vis (fun U v hv' => ⟨hv', fun s hs => hs⟩) _ vis hv
  | succ k ih =>
    intro T vis hv
    exact fLoop_vis (fun U v hv' => ih U v hv') _ vis hv

/-- `fLoop` depends on the different-pair set only through membership. -/
theorem fLoop_congr {dpC1 dpC2 : List (Nat × Nat)} {k : Nat}
    {rec1 rec2 : List Nat → List (List Nat) → List (List Nat) × List (List Nat)}
    (hdp : ∀ p : Nat × Nat, p ∈ dpC1 ↔ p ∈ dpC2)
    (hrec : ∀ U v, rec1 U v = rec2 U v) :
    ∀ (Us vis : List (List Nat)),
      fLoop dpC1 k rec1 Us vis = fLoop dpC2 k rec2 Us vis := by
  intro Us
  induction Us with
  | nil => intro vis; rw [fLoop_nil, fLoop_nil]
  | cons Ui rest ih =>
    intro vis
    have hany : (get_all_pairs Ui).any (fun p => decide (p ∈ dpC1)) =
        (get_all_pairs Ui).any (fun p => decide (p ∈ dpC2)) :=
      any_congr fun p _ => decide_eq_decide.mpr (hdp p)
    by_cases hm : Ui ∈ vis
    · rw [fLoop_cons_mem dpC1 k rec1 rest hm, fLoop_cons_mem dpC2 k rec2 rest hm]
      exact ih vis
    · rw [fLoop_cons_not_mem dpC1 k rec1 rest hm,
        fLoop_cons_not_mem dpC2 k rec2 rest hm, hany, hrec Ui (Ui :: vis)]
      split
      · split
        · rw [ih]
        · rw [ih]
      · rw [ih]

/-- `_f` depends on the different-pair set only through membership. -/
theorem f_congr {dpC1 dpC2 : List (Nat × Nat)}
    (hdp : ∀ p : Nat × Nat, p ∈ dpC1 ↔ p ∈ dpC2) :
    ∀ (k : Nat) (T : List Nat) (vis : List (List Nat)),
      _f dpC1 k T vis = _f dpC2 k T vis := by
  intro k
  induction k with
  | zero => intro T vis; exact fLoop_congr hdp (fun U v => rfl) _ vis
  | succ k ih => intro T vis; exact fLoop_congr hdp (fun U v => ih U v) _ vis

/-! ## Lemmas about `remove_overlapping_subsets` -/

/-- The kept sets form a sublist of the sets still to be scanned. -/
theorem rosAux_sublist :
    ∀ (prev rest : List (List Nat)), List.Sublist (rosAux prev rest) rest := by
  intro prev rest
  induction rest generalizing prev with
  | nil => exact List.Sublist.refl _
  | cons e rest ih =>
    rw [rosAux]
    split
    · exact (ih (prev ++ [e])).cons e
    · exact (ih (prev ++ [e])).cons₂ e

/-- A set kept by the scan is not wholly contained in any set at another
position of the scanned list. -/
theorem rosAux_kept :
    ∀ (prev rest : List (List Nat)), (prev ++ rest).Nodup →
      ∀ x ∈ rosAux prev rest, ∀ t ∈ prev ++ rest, t ≠ x →
        (fdiff x t).length ≠ 0 := by
  intro prev rest
  induction rest generalizing prev with
  | nil => intro _ x hx; cases hx
  | cons e rest ih =>
    intro hnd x hx t ht htx
    have hassoc : (prev ++ [e]) ++ rest = prev ++ e :: rest := by simp
    rw [rosAux] at hx
    split at hx
    · exact ih (prev ++ [e]) (by rw [hassoc]; exact hnd) x hx t
        (by rw [hassoc]; exact ht) htx
    · rename_i hcond
      rcases List.mem_cons.mp hx with rfl | hx'
      · have ht' : t ∈ prev ++ rest := by
          rcases List.mem_append.mp ht with h1 | h1
          · exact List.mem_append_left _ h1
          · rcases List.mem_cons.mp h1 with rfl | h2
            · exact absurd rfl htx
            · exact List.mem_append_right _ h2
        intro hlen
        apply hcond
        rw [List.any_eq_true]
        exact ⟨t, ht', decide_eq_true hlen⟩
      · exact ih (prev ++ [e]) (by rw [hassoc]; exact hnd) x hx' t
          (by rw [hassoc]; exact ht) htx

/-- The element-difference is empty exactly when the first set is wholly
contained in the second. -/
theorem fdiff_length_eq_zero_iff {α : Type} [DecidableEq α] (a b : List α) :
    (fdiff a b).length = 0 ↔ ∀ x ∈ a, x ∈ b := by
  simp [fdiff, List.length_eq_zero, List.filter_eq_nil_iff]

/-- An element-difference of nonzero length exhibits an element of the
first set missing from the second. -/
theorem exists_of_fdiff_ne {α : Type} [DecidableEq α] {a b : List α}
    (h : (fdiff a b).length ≠ 0) : ∃ x ∈ a, x ∉ b := by
  have h2 : ¬∀ x ∈ a, x ∈ b :=
    fun hall => h ((fdiff_length_eq_zero_iff a b).mpr hall)
  push_neg at h2
  exact h2

/-! ## Lemmas about `take_not` -/

/-- Membership in `take_not T j` for a duplicate-free `T`: exactly the
elements of `T` other than the one at position `j`. -/
theorem mem_take_not_iff {T : List Nat} (hT : T.Nodup) {j : Nat}
    (hj : j < T.length) {y : Nat} :
    y ∈ take_not T j ↔ (y ∈ T ∧ y ≠ T.get ⟨j, hj⟩) := by
  unfold take_not
  constructor
  · intro hy
    rcases List.mem_eraseIdx_iff_get.mp hy with ⟨i, hij, hgy⟩
    refine ⟨hgy ▸ List.get_mem T i.1 i.2, ?_⟩
    intro hcontra
    have : T.get i = T.get ⟨j, hj⟩ := by rw [hgy, hcontra]
    exact hij (congrArg Fin.val ((List.Nodup.get_inj_iff hT).mp this))
  · rintro ⟨hy, hne⟩
    rcases List.mem_iff_get.mp hy with ⟨i, hgy⟩
    refine List.mem_eraseIdx_iff_get.mpr ⟨i, ?_, hgy⟩
    intro hcontra
    exact hne (by rw [← hgy]; congr 1; exact Fin.ext hcontra)

/-- Removing different positions of a duplicate-free list gives different
lists. -/
theorem take_not_ne {T : List Nat} (hT : T.Nodup) {i j : Nat}
    (hi : i < T.length) (hj : j < T.length) (hij : i ≠ j) :
    take_not T i ≠ take_not T j := by
  intro hEq
  have hgne : T.get ⟨j, hj⟩ ≠ T.get ⟨i, hi⟩ := by
    intro hcontra
    exact hij (congrArg Fin.val ((List.Nodup.get_inj_iff hT).mp hcontra)).symm
  have h1 : T.get ⟨j, hj⟩ ∈ take_not T i :=
    (mem_take_not_iff hT hi).mpr ⟨List.get_mem T j hj, hgne⟩
  have h2 : T.get ⟨j, hj⟩ ∉ take_not T j := fun hc =>
    ((mem_take_not_iff hT hj).mp hc).2 rfl
  rw [hEq] at h1
  exact h2 h1

/-! ## Claim C1 -/

/-- C1, as stated, is false for a degenerate self-pair: with
`different_pairs = [(0,0)]` and `N = 1` the returned group `(0,)` contains
both endpoints of the pair `(0,0)` (they are the same item), because
`get_all_pairs` only ever forms pairs of two distinct members, so a
self-pair can never prune anything. -/
theorem C1_counterexample :
    find_homogeneous_groups [(0, 0)] 1 = [[0]] ∧
    ¬(∀ G ∈ find_homogeneous_groups [(0, 0)] 1,
        ∀ p ∈ [((0 : Nat), (0 : Nat))], ¬(p.1 ∈ G ∧ p.2 ∈ G)) := by
  constructor
  · rfl
  · decide

/-- C1 (amended: for pairs of two distinct items, as the spec's data model
requires of an `UnorderedPair`): every group returned by
`find_homogeneous_groups` contains no different pair — for every pair
`(a,b)` in `different_pairs` with `a ≠ b`, not both `a` and `b` are members
of a returned group, regardless of the order the pair was written in. -/
theorem C1_no_different_pair_in_group
    (dp : List (Nat × Nat)) (N : Nat) (G : List Nat) (a b : Nat)
    (hG : G ∈ find_homogeneous_groups dp N) (hab : (a, b) ∈ dp)
    (hne : a ≠ b) : ¬(a ∈ G ∧ b ∈ G) := by
  rintro ⟨haG, hbG⟩
  rw [find_homogeneous_groups_eq] at hG
  have hGdedup : G ∈ ((_f (dp.map UnorderedPair) N (List.range N) []).1).dedup :=
    (rosAux_sublist _ _).mem hG
  have hGgood : G ∈ (_f (dp.map UnorderedPair) N (List.range N) []).1 :=
    List.mem_dedup.mp hGdedup
  have hhom := f_goods_homog N (List.range N) [] G hGgood
  have hpair : UnorderedPair (a, b) ∈ get_all_pairs G :=
    mem_get_all_pairs haG hbG hne
  have hdpc : UnorderedPair (a, b) ∈ dp.map UnorderedPair :=
    List.mem_map_of_mem _ hab
  simp only [List.any_eq_false, decide_eq_true_eq] at hhom
  exact hhom _ hpair hdpc

/-- Witness for C1 at a concrete input: with `different_pairs = [(0,1)]`
and `N = 3`, the group `(1,2)` is returned and does not contain both `0`
and `1`. -/
theorem C1_witness :
    [1, 2] ∈ find_homogeneous_groups [(0, 1)] 3 ∧ ¬(0 ∈ [1, 2] ∧ 1 ∈ [1, 2]) :=
  ⟨by decide,
    C1_no_different_pair_in_group [(0, 1)] 3 [1, 2] 0 1 (by decide) (by decide)
      (by decide)⟩

/-! ## Claim C2 -/

/-- C2: the list returned by `find_homogeneous_groups` contains no
duplicates, and no returned group is a (non-strict) subset of another
returned group: any two distinct returned groups each contain an item the
other lacks. -/
theorem C2_no_group_subset_of_another (dp : List (Nat × Nat)) (N : Nat) :
    (find_homogeneous_groups dp N).Nodup ∧
    ∀ G1 ∈ find_homogeneous_groups dp N, ∀ G2 ∈ find_homogeneous_groups dp N,
      G1 ≠ G2 → ∃ x ∈ G1, x ∉ G2 := by
  rw [find_homogeneous_groups_eq]
  set S := ((_f (dp.map UnorderedPair) N (List.range N) []).1).dedup with hS
  have hSnd : S.Nodup := List.nodup_dedup _
  constructor
  · exact hSnd.sublist (rosAux_sublist [] S)
  · intro G1 hG1 G2 hG2 hne12
    have hG2S : G2 ∈ ([] : List (List Nat)) ++ S :=
      List.mem_append_right _ ((rosAux_sublist [] S).mem hG2)
    have hkept := rosAux_kept [] S (by simpa using hSnd) G1 hG1 G2 hG2S hne12.symm
    exact exists_of_fdiff_ne hkept

/-- Witness for C2 at a concrete input: `find_homogeneous_groups [(0,1)] 3`
returns `[(1,2), (0,2)]`, whose first group contains an item missing from
the second. -/
theorem C2_witness :
    (find_homogeneous_groups [(0, 1)] 3).Nodup ∧ ∃ x ∈ [1, 2], x ∉ [0, 2] :=
  ⟨(C2_no_group_subset_of_another [(0, 1)] 3).1,
    (C2_no_group_subset_of_another [(0, 1)] 3).2 [1, 2] (by decide) [0, 2]
      (by decide) (by decide)⟩

/-! ## Claim C3 -/

/-- C3: for a duplicate-free `T` with `n` elements and any integer `k`,
`get_k_element_subsets k T` returns `[T]` when `k = n`; when `k = n - 1` it
returns the `n` subsets obtained by removing exactly one element of `T` at
a time — one subset per position, pairwise distinct, the `j`-th consisting
of exactly the elements of `T` other than the `j`-th — and for every other
`k` it fails with the unsupported-cardinality (`NotImplementedError`)
error. -/
theorem C3_k_element_subsets (k : Int) (T : List Nat) (hT : T.Nodup) :
    (k = (T.length : Int) → get_k_element_subsets k T = Except.ok [T]) ∧
    (k = (T.length : Int) - 1 →
      get_k_element_subsets k T =
          Except.ok ((List.range T.length).map (fun j => take_not T j)) ∧
      ((List.range T.length).map (fun j => take_not T j)).length = T.length ∧
      ((List.range T.length).map (fun j => take_not T j)).Nodup ∧
      ∀ (j : Nat) (hj : j < T.length) (y : Nat),
        y ∈ take_not T j ↔ (y ∈ T ∧ y ≠ T.get ⟨j, hj⟩)) ∧
    (k ≠ (T.length : Int) → k ≠ (T.length : Int) - 1 →
      get_k_element_subsets k T = Except.error "NotImplementedError") := by
  refine ⟨fun h1 => ?_, fun h2 => ?_, fun h1 h2 => ?_⟩
  · rw [get_k_element_subsets, if_pos h1]
  · have h1 : k ≠ (T.length : Int) := by omega
    refine ⟨by rw [get_k_element_subsets, if_neg h1, if_pos h2], by simp, ?_, ?_⟩
    · refine (List.nodup_range T.length).map_on ?_
      intro i hi j hj hEq
      by_contra hij
      exact take_not_ne hT (List.mem_range.mp hi) (List.mem_range.mp hj) hij hEq
    · intro j hj y
      exact mem_take_not_iff hT hj
  · rw [get_k_element_subsets, if_neg h1, if_neg h2]

/-- Witness for C3 at a concrete input: `T = {0,1,2}`, `k = 2` produces the
three two-element subsets, and `k = 5` fails. -/
theorem C3_witness :
    get_k_element_subsets 2 [0, 1, 2] = Except.ok [[1, 2], [0, 2], [0, 1]] ∧
    get_k_element_subsets 5 [0, 1, 2] = Except.error "NotImplementedError" :=
  ⟨(((C3_k_element_subsets 2 [0, 1, 2] (by decide)).2.1 (by decide)).1).trans rfl,
    (C3_k_element_subsets 5 [0, 1, 2] (by decide)).2.2 (by decide) (by decide)⟩

/-! ## Claim C4 -/

/-- C4, as stated, is false: a pair referencing an index outside `[0, N)`
is not rejected — `find_homogeneous_groups([(0,5)], 3)` performs no input
validation, runs the search, and returns the full group list `[(0,1,2)]`
instead of an error. -/
theorem C4_counterexample :
    find_homogeneous_groups_checked [(0, 5)] 3 = Except.ok [[0, 1, 2]] ∧
    ¬(5 < 3) :=
  ⟨rfl, by decide⟩

/-- C4 (amended): only a negative `N` is rejected before the search begins
(the `assert k == len(S)` fails, so no group list is returned); an index
outside `[0, N)` in `different_pairs` is not rejected — for every
`different_pairs`, whatever indices it contains, a non-negative `N` always
yields the ordinary search result. -/
theorem C4_only_negative_N_rejected (dp : List (Nat × Nat)) (N : Int) :
    (N < 0 → find_homogeneous_groups_checked dp N = Except.error "AssertionError") ∧
    (0 ≤ N → find_homogeneous_groups_checked dp N =
      Except.ok (find_homogeneous_groups dp N.toNat)) := by
  constructor
  · intro h
    rw [find_homogeneous_groups_checked, if_neg]
    simp only [List.length_range]
    omega
  · intro h
    rw [find_homogeneous_groups_checked, if_pos]
    simp only [List.length_range]
    omega

/-- Witness for C4 at a concrete input: `N = -1` is rejected by the
assertion; `N = 2` (with an out-of-range pair) is not. -/
theorem C4_witness :
    find_homogeneous_groups_checked [] (-1) = Except.error "AssertionError" ∧
    find_homogeneous_groups_checked [(7, 9)] 2 =
      Except.ok (find_homogeneous_groups [(7, 9)] 2) :=
  ⟨(C4_only_negative_N_rejected [] (-1)).1 (by decide),
    (C4_only_negative_N_rejected [(7, 9)] 2).2 (by decide)⟩

/-! ## Claim C5 -/

/-- C5, as stated, is false for `N = 0`: `find_homogeneous_groups([], 0)`
does not return the empty list — the empty universe itself survives the
search as a (degenerate) group, so the result is `[()]`. -/
theorem C5_counterexample :
    find_homogeneous_groups [] 0 = [[]] ∧
    find_homogeneous_groups [] 0 ≠ [] := ⟨rfl, by decide⟩

/-- C5 (amended): `find_homogeneous_groups(different_pairs, 0)` returns the
one-element list containing the empty group, for every `different_pairs`;
and `find_homogeneous_groups([], 1)` returns the single degenerate group
consisting of the whole one-item universe. -/
theorem C5_trivial_universes (dp : List (Nat × Nat)) :
    find_homogeneous_groups dp 0 = [[]] ∧
    find_homogeneous_groups [] 1 = [[0]] := ⟨rfl, rfl⟩

/-! ## Claim C6 -/

/-- C7: the claim (and the function's own docstring, which promises a list
`T` of unique sets such that every set in `S` is a subset of a set in `T`)
says that of two equal sets the first encountered survives.  The code drops
BOTH copies: each one sees the other at a different position with an empty
element-difference.  On `S = [{0}, {0}]` the result is `[]`, so `{0}` is a
member of `S` that is a subset of no member of the output. -/
theorem C7_duplicate_sets_all_dropped :
    remove_overlapping_subsets [[0], [0]] = [] ∧
    [0] ∉ remove_overlapping_subsets [[0], [0]] := ⟨rfl, by decide⟩

/-! ## Claim C8 -/

/-- C8, as stated, is false: `is_list_of_sets_equal` does not detect a set
occurring in `B` but not in `A` when a duplicate in `A` makes the raw
lengths agree.  With `A = [{0},{0},{1}]` and `B = [{0},{1},{2}]` it returns
`True` although `{2}` occurs only in `B` (the code checks only
`frozenset(A) - frozenset(B)`, never the reverse difference). -/
theorem C8_counterexample :
    is_list_of_sets_equal [[0], [0], [1]] [[0], [1], [2]] = true ∧
    [2] ∈ [[0], [1], [2]] ∧ [2] ∉ [[0], [0], [1]] := by decide

/-- C8 (amended): `is_list_of_sets_equal A B` returns `true` iff the raw
(not deduplicated) lengths of `A` and `B` agree and every set occurring in
`A` occurs in `B`.  In particular it returns `false` whenever some set
occurs in `A` but not in `B` — but not necessarily in the reverse
direction. -/
theorem C8_one_sided_containment_check (A B : List (List Nat)) :
    is_list_of_sets_equal A B = true ↔
      (A.length = B.length ∧ ∀ a ∈ A, a ∈ B) := by
  simp only [is_list_of_sets_equal]
  by_cases h : A.length = B.length
  · rw [if_neg (fun hc => hc h)]
    by_cases h2 : (fdiff A.dedup B.dedup).length = 0
    · rw [if_neg (fun hc => hc h2)]
      simp only [true_iff]
      exact ⟨h, fun a ha => List.mem_dedup.mp
        ((fdiff_length_eq_zero_iff _ _).mp h2 a (List.mem_dedup.mpr ha))⟩
    · rw [if_pos h2]
      simp only [Bool.false_eq_true, false_iff, not_and]
      intro _ hall
      exact h2 ((fdiff_length_eq_zero_iff _ _).mpr fun x hx =>
        List.mem_dedup.mpr (hall x (List.mem_dedup.mp hx)))
  · rw [if_pos h]
    simp only [Bool.false_eq_true, false_iff, not_and]
    intro hlen
    exact absurd hlen h

/-! ## Claim C9 -/

/-- C9: the result of `find_homogeneous_groups` is unchanged when
`different_pairs` is replaced by any list with the same underlying
unordered relation (each pair of either list occurs, up to
canonicalisation, in the other — which is preserved by reversing pairs,
adding duplicates, or permuting the list); and `UnorderedPair (a,b)` equals
`UnorderedPair (b,a)` for all `a`, `b` (hence the two also hash
identically, hashing being a function of the value). -/
theorem C9_unordered_relation_determines_result :
    (∀ (dp1 dp2 : List (Nat × Nat)) (N : Nat),
      (∀ p ∈ dp1, UnorderedPair p ∈ dp2.map UnorderedPair) →
      (∀ p ∈ dp2, UnorderedPair p ∈ dp1.map UnorderedPair) →
      find_homogeneous_groups dp1 N = find_homogeneous_groups dp2 N) ∧
    (∀ a b : Nat, UnorderedPair (a, b) = UnorderedPair (b, a)) := by
  constructor
  · intro dp1 dp2 N h12 h21
    have hdp : ∀ p : Nat × Nat,
        p ∈ dp1.map UnorderedPair ↔ p ∈ dp2.map UnorderedPair := by
      intro p
      constructor
      · intro hp
        rcases List.mem_map.mp hp with ⟨q, hq, rfl⟩
        exact h12 q hq
      · intro hp
        rcases List.mem_map.mp hp with ⟨q, hq, rfl⟩
        exact h21 q hq
    rw [find_homogeneous_groups_eq, find_homogeneous_groups_eq,
      f_congr hdp N (List.range N) []]
  · exact UnorderedPair_comm

/-- Witness for C9 at a concrete input: reversing a pair and adding a
duplicate leaves the result of the search unchanged. -/
theorem C9_witness :
    find_homogeneous_groups [(1, 0), (0, 1), (0, 1)] 3 =
      find_homogeneous_groups [(0, 1)] 3 :=
  C9_unordered_relation_determines_result.1 [(1, 0), (0, 1), (0, 1)] [(0, 1)] 3
    (by decide) (by decide)

/-! ## Claim C10 -/

/-- C10: during one invocation of `find_homogeneous_groups` each distinct
candidate subset is expanded at most once.  First conjunct: a pending
subset already recorded in the visited set is skipped outright — the loop
state is exactly as if it were not there, so no pair test, group recording
or descent happens for it.  Second conjunct: a subset is added to the
visited set exactly when it is expanded, and starting (as the top-level
call does) from a duplicate-free visited set the visited set stays
duplicate-free and only grows — so no subset is ever expanded (recorded)
twice in one invocation. -/
theorem C10_each_subset_expanded_once :
    (∀ (dpC : List (Nat × Nat)) (k : Nat)
      (rec : List Nat → List (List Nat) → List (List Nat) × List (List Nat))
      (Ui : List Nat) (rest vis : List (List Nat)), Ui ∈ vis →
        fLoop dpC k rec (Ui :: rest) vis = fLoop dpC k rec rest vis) ∧
    (∀ (dpC : List (Nat × Nat)) (k : Nat) (T : List Nat)
      (vis : List (List Nat)), vis.Nodup →
        ((_f dpC k T vis).2.Nodup ∧ ∀ s ∈ vis, s ∈ (_f dpC k T vis).2)) :=
  ⟨fun dpC k rec Ui rest vis h => fLoop_cons_mem dpC k rec rest h,
    fun _ k T vis h => f_vis k T vis h⟩

/-- Witness for C10 at a concrete input. -/
theorem C10_witness :
    fLoop [] 3 (fun _ v => ([], v)) [[0]] [[0]] =
      fLoop [] 3 (fun _ v => ([], v)) [] [[0]] ∧
    (_f [] 2 [0, 1] []).2.Nodup :=
  ⟨C10_each_subset_expanded_once.1 [] 3 (fun _ v => ([], v)) [0] [] [[0]]
      (by decide),
    (C10_each_subset_expanded_once.2 [] 2 [0, 1] [] (by decide)).1⟩

end Pairs2Groups
